import Mathlib

/-!
Verification of the hierarchy-derivation and classification engine of the
langchain-samples-hierarchy repository.

The Python core (`src/hierarchy_builder.py`) is embedded shallowly:
repository records become a structure with `Option` fields for the keys the
code reads with `dict.get` or `dict[...]`, the insertion-ordered Python
`dict` becomes an association list updated with insert-if-absent semantics,
and the loop of `HierarchyBuilder.build_hierarchy` becomes an explicit fold
in `Except` (a missing mandatory key raises, mirroring Python `KeyError`).
Python `sorted(..., reverse=True)` is a stable descending sort, embedded as
an insertion sort with the same (unique) stable result.

The JavaScript classifiers emitted by `src/site_generator.py`
(`classifyRepoByProduct`, `classifyDifficulty`) are embedded over a record
type with the fields they read.
-/

namespace HierarchySpec

/-- A repository record.  Fields the Python code reads with `repo[...]`
(`name`, `url`) or `repo.get(...)` (`description`, `language`) are `Option`;
`topics` defaults to `[]` and `stars`/`forks` to `0` exactly as
`repo.get("topics", [])` / `repo.get("stars", 0)` do. -/
structure Repo where
  name : Option String
  url : Option String
  description : Option String
  topics : List String
  language : Option String
  stars : Nat
  forks : Nat
deriving DecidableEq

/-- `TopicNode` from `hierarchy_builder.py`. -/
structure TopicNode where
  name : String
  repositories : List Repo
  count : Nat
deriving DecidableEq

/-- One entry of `topic_connections` (lines 102-106 of the source). -/
structure Connection where
  repository : String
  topics : List String
  url : String
deriving DecidableEq

/-- One entry of `stats["top_topics"]` / `stats["top_languages"]`. -/
structure TopEntry where
  name : String
  count : Nat
deriving DecidableEq

/-- The `stats` dictionary produced by `HierarchyBuilder._calculate_stats`. -/
structure Stats where
  total_repositories : Nat
  total_topics : Nat
  total_languages : Nat
  total_stars : Nat
  total_forks : Nat
  top_topics : List TopEntry
  top_languages : List TopEntry
  repos_with_multiple_topics : Nat
  repos_without_topics : Nat
deriving DecidableEq

/-- `HierarchyData` from `hierarchy_builder.py`. -/
structure HierarchyData where
  topics : List (String × TopicNode)
  all_repositories : List Repo
  topic_connections : List Connection
  languages : List (String × List Repo)
  stats : Stats
deriving DecidableEq

/-- Lookup in an insertion-ordered association list (a Python `dict`). -/
def alistLookup {β : Type} (k : String) : List (String × β) → Option β
  | [] => none
  | p :: rest => if p.1 = k then some p.2 else alistLookup k rest

/-- The keys of an association list, in insertion order. -/
def keysOf {β : Type} (l : List (String × β)) : List String := l.map Prod.fst

/-- Python `dict` update with insert-if-absent semantics: if `k` is present
apply `f` to its value in place, otherwise append `(k, d)` at the end
(preserving first-insertion order of keys). -/
def upsert {β : Type} (k : String) (f : β → β) (d : β) : List (String × β) → List (String × β)
  | [] => [(k, d)]
  | p :: rest => if p.1 = k then (p.1, f p.2) :: rest else p :: upsert k f d rest

/-- Lines 82-85 of `hierarchy_builder.py`: create the `TopicNode` if absent,
then append the record and increment the count. -/
def addToGroup (k : String) (r : Repo) (l : List (String × TopicNode)) :
    List (String × TopicNode) :=
  upsert k (fun n => { n with repositories := n.repositories ++ [r], count := n.count + 1 })
    { name := k, repositories := [r], count := 1 } l

/-- Lines 95-98: `defaultdict(list)` append for the language grouping. -/
def addToLang (k : String) (r : Repo) (l : List (String × List Repo)) :
    List (String × List Repo) :=
  upsert k (fun rs => rs ++ [r]) [r] l

/-- The language-group key: the record's language when truthy, else
`"Unknown"` (Python truthiness: `None` and `""` are falsy). -/
def langKey (r : Repo) : String :=
  match r.language with
  | some s => if s = "" then "Unknown" else s
  | none => "Unknown"

/-- Lines 81-92: topic-group updates for one record — the topic loop,
then the `uncategorized` bucket when the topic list is empty. -/
def stepTopics (r : Repo) (topics : List (String × TopicNode)) :
    List (String × TopicNode) :=
  let topics1 := r.topics.foldl (fun acc t => addToGroup t r acc) topics
  if r.topics.isEmpty then addToGroup "uncategorized" r topics1 else topics1

/-- The cross-reference entry a record contributes (lines 101-106):
`some` exactly when the record has more than one topic and both mandatory
keys `name` and `url` are present. -/
def connProj (r : Repo) : Option Connection :=
  if 1 < r.topics.length then
    match r.name, r.url with
    | some n, some u => some { repository := n, topics := r.topics, url := u }
    | _, _ => none
  else none

/-- The mutable loop state of `build_hierarchy`. -/
structure BuildState where
  topics : List (String × TopicNode)
  langs : List (String × List Repo)
  conns : List Connection
deriving DecidableEq

/-- One iteration of the loop of `build_hierarchy` (lines 76-106): topic
groups, language groups, then the cross-reference entry, which raises
`KeyError` when `repo["name"]` or `repo["url"]` is missing. -/
def processRepo (st : BuildState) (r : Repo) : Except String BuildState :=
  let topics2 := stepTopics r st.topics
  let langs1 := addToLang (langKey r) r st.langs
  if 1 < r.topics.length then
    match r.name with
    | none => .error "KeyError: name"
    | some n =>
      match r.url with
      | none => .error "KeyError: url"
      | some u =>
        .ok { topics := topics2, langs := langs1,
              conns := st.conns ++ [{ repository := n, topics := r.topics, url := u }] }
  else .ok { topics := topics2, langs := langs1, conns := st.conns }

/-- The loop of `build_hierarchy`: a raised `KeyError` aborts the whole
batch. -/
def buildFold (st : BuildState) : List Repo → Except String BuildState
  | [] => .ok st
  | r :: rs =>
    match processRepo st r with
    | .ok st1 => buildFold st1 rs
    | .error e => .error e

/-- The error-free shadow of `processRepo`: identical state update, with the
cross-reference entry given by `connProj`. -/
def pureStep (st : BuildState) (r : Repo) : BuildState :=
  { topics := stepTopics r st.topics,
    langs := addToLang (langKey r) r st.langs,
    conns := st.conns ++ (connProj r).toList }

/-- The error-free shadow of `buildFold`. -/
def pureFold (st : BuildState) : List Repo → BuildState
  | [] => st
  | r :: rs => pureFold (pureStep st r) rs

/-- Stable descending insertion: `x` is placed before the first element
whose key is not larger, so among equal keys earlier elements stay first. -/
def insertDescBy {α : Type} (key : α → Nat) (x : α) : List α → List α
  | [] => [x]
  | y :: ys => if key x < key y then y :: insertDescBy key x ys else x :: y :: ys

/-- Python `sorted(..., key=..., reverse=True)`: the stable descending sort
by a numeric key. -/
def sortDescBy {α : Type} (key : α → Nat) : List α → List α
  | [] => []
  | x :: xs => insertDescBy key x (sortDescBy key xs)

/-- `HierarchyBuilder._calculate_stats` (lines 119-160). -/
def calculateStats (records : List Repo) (topics : List (String × TopicNode))
    (languages : List (String × List Repo)) : Stats :=
  { total_repositories := records.length,
    total_topics := (topics.filter (fun p => p.1 != "uncategorized")).length,
    total_languages := (languages.filter (fun p => p.1 != "Unknown")).length,
    total_stars := (records.map (fun r => r.stars)).sum,
    total_forks := (records.map (fun r => r.forks)).sum,
    top_topics := ((sortDescBy (fun p => p.2.count) topics).take 10).map
      (fun p => { name := p.1, count := p.2.count }),
    top_languages := ((sortDescBy (fun p => p.2.length) languages).take 10).map
      (fun p => { name := p.1, count := p.2.length }),
    repos_with_multiple_topics := (records.filter (fun r => 1 < r.topics.length)).length,
    repos_without_topics := (records.filter (fun r => r.topics.isEmpty)).length }

/-- `HierarchyBuilder.build_hierarchy`: run the loop, then assemble the
`HierarchyData` with the computed stats. -/
def buildHierarchy (records : List Repo) : Except String HierarchyData :=
  match buildFold { topics := [], langs := [], conns := [] } records with
  | .error e => .error e
  | .ok st =>
    .ok { topics := st.topics, all_repositories := records,
          topic_connections := st.conns, languages := st.langs,
          stats := calculateStats records st.topics st.langs }

/-- The hierarchy `build_hierarchy` returns whenever it does not raise. -/
def pureHierarchy (records : List Repo) : HierarchyData :=
  let st := pureFold { topics := [], langs := [], conns := [] } records
  { topics := st.topics, all_repositories := records,
    topic_connections := st.conns, languages := st.langs,
    stats := calculateStats records st.topics st.langs }

/-- The `count` stored for key `k`, `0` when the group is absent. -/
def groupCount (k : String) (l : List (String × TopicNode)) : Nat :=
  match alistLookup k l with
  | some n => n.count
  | none => 0

/-- The member list stored for key `k`, `[]` when the group is absent. -/
def groupMembers (k : String) (l : List (String × TopicNode)) : List Repo :=
  match alistLookup k l with
  | some n => n.repositories
  | none => []

/-- The members of the reserved `"uncategorized"` group. -/
def uncatMembers (l : List (String × TopicNode)) : List Repo :=
  groupMembers "uncategorized" l

/-- Sum of `count` over all topic groups. -/
def sumCounts (l : List (String × TopicNode)) : Nat :=
  (l.map (fun p => p.2.count)).sum

/-- The records on which `build_hierarchy` raises `KeyError`: more than one
topic and a missing mandatory key. -/
def badRepo (r : Repo) : Prop :=
  1 < r.topics.length ∧ (r.name = none ∨ r.url = none)

instance (r : Repo) : Decidable (badRepo r) :=
  inferInstanceAs (Decidable (1 < r.topics.length ∧ (r.name = none ∨ r.url = none)))

/-- The empty initial loop state. -/
def initState : BuildState := { topics := [], langs := [], conns := [] }

/-- A well-formed record with no topics and no language. -/
def exNoTopics : Repo :=
  { name := some "r-zero", url := some "u-zero", description := none,
    topics := [], language := none, stars := 0, forks := 0 }

/-- A well-formed record with one topic. -/
def exOneTopic : Repo :=
  { name := some "r-one", url := some "u-one", description := none,
    topics := ["x"], language := some "Go", stars := 1, forks := 2 }

/-- A well-formed record with two topics. -/
def exTwoTopics : Repo :=
  { name := some "r-two", url := some "u-two", description := none,
    topics := ["x", "y"], language := some "Go", stars := 3, forks := 4 }

/-- A record whose topic list contains the literal string
`"uncategorized"`. -/
def exLiteralUncat : Repo :=
  { name := some "r-lit", url := some "u-lit", description := none,
    topics := ["uncategorized"], language := none, stars := 0, forks := 0 }

/-- A record listing the same topic twice. -/
def exDupTopics : Repo :=
  { name := some "r-dup", url := some "u-dup", description := none,
    topics := ["a", "a"], language := none, stars := 0, forks := 0 }

/-- A record missing both mandatory keys, with an empty topic list. -/
def exMissingName : Repo :=
  { name := none, url := none, description := none,
    topics := [], language := none, stars := 0, forks := 0 }

/-- A record missing `name` that has two topics. -/
def exBadRecord : Repo :=
  { name := none, url := some "u-bad", description := none,
    topics := ["a", "b"], language := none, stars := 0, forks := 0 }

/-- The record shape read by the JavaScript classifiers in
`site_generator.py`: `repo.name` is accessed directly, `repo.description`
defaults to the empty string, `repo.topics` to `[]`. -/
structure JsRepo where
  name : String
  description : Option String
  topics : List String
deriving DecidableEq

/-- Character-wise ASCII lower-casing (the classifier keywords and names
are ASCII, where JavaScript `toLowerCase` agrees). -/
def lowerStr (s : String) : String :=
  String.mk (s.data.map Char.toLower)

/-- Whether `pat` is a prefix of `l`. -/
def startsWithList : List Char → List Char → Bool
  | [], _ => true
  | _ :: _, [] => false
  | p :: ps, c :: cs => p == c && startsWithList ps cs

/-- Whether `pat` occurs contiguously inside `l`. -/
def containsList (pat : List Char) : List Char → Bool
  | [] => pat.isEmpty
  | c :: cs => startsWithList pat (c :: cs) || containsList pat cs

/-- JavaScript `combined.includes(kw)`: substring containment. -/
def includesSub (combined kw : String) : Bool :=
  containsList kw.data combined.data

/-- JavaScript `Array.join(" ")`. -/
def joinWithSpace : List String → String
  | [] => ""
  | [s] => s
  | s :: rest => s ++ " " ++ joinWithSpace rest

/-- The combined text both classifiers match against:
`name + " " + (desc || "") + " " + topics.join(" ")`, lower-cased. -/
def combinedText (r : JsRepo) : String :=
  lowerStr r.name ++ " " ++ lowerStr (r.description.getD "") ++ " " ++
    joinWithSpace (r.topics.map lowerStr)

/-- The LangSmith keyword list of `classifyRepoByProduct`. -/
def langsmithKeywords : List String :=
  ["langsmith", "tracing", "trace", "eval", "debug", "observability", "otel",
   "cicd", "deployment", "ls-deployment"]

/-- The LangGraph keyword list of `classifyRepoByProduct`. -/
def langgraphKeywords : List String :=
  ["langgraph", "graph", "agent-builder", "agent2agent", "agent-oauth",
   "azure-langgraph", "remote-graph"]

/-- The LangChain keyword list of `classifyRepoByProduct`. -/
def langchainKeywords : List String :=
  ["langchain", "guardrail", "middleware", "framework", "prompt"]

/-- `classifyRepoByProduct` from `site_generator.py` (lines 1357-1378):
`none` models the JavaScript `null`. -/
def classifyRepoByProduct (r : JsRepo) : Option String :=
  let name := lowerStr r.name
  let combined := combinedText r
  if name = ".github" then none
  else if langsmithKeywords.any (fun kw => includesSub combined kw) then some "langsmith"
  else if langgraphKeywords.any (fun kw => includesSub combined kw) then some "langgraph"
  else if langchainKeywords.any (fun kw => includesSub combined kw) then some "langchain"
  else none

/-- First category in an ordered `(label, keywords)` list whose keyword set
has a substring match in `text`. -/
def firstMatch (priority : List (String × List String)) (text : String) : Option String :=
  match priority with
  | [] => none
  | (cat, kws) :: rest =>
    if kws.any (fun kw => includesSub text kw) then some cat else firstMatch rest text

/-- The fixed category priority order of `classifyRepoByProduct`. -/
def productPriority : List (String × List String) :=
  [("langsmith", langsmithKeywords), ("langgraph", langgraphKeywords),
   ("langchain", langchainKeywords)]

/-- Modelled from the claim text of C8: the meta-configuration exclusion
compares the name itself (not its lower-casing) with `".github"`. -/
def classifyByProductClaim (r : JsRepo) : Option String :=
  if r.name = ".github" then none
  else firstMatch productPriority (combinedText r)

/-- The amended classifier contract: the exclusion applies whenever the name
lower-cases to `".github"`; otherwise the first matching category in
priority order, `none` when no keyword matches. -/
def classifyByProductAmended (r : JsRepo) : Option String :=
  if lowerStr r.name = ".github" then none
  else firstMatch productPriority (combinedText r)

/-- The beginner keyword list of `difficultyLevels` (line 1503). -/
def beginnerKeywords : List String :=
  ["intro", "getting-started", "basics", "tutorial", "quickstart", "hello",
   "simple", "starter", "demo", "example"]

/-- The intermediate keyword list of `difficultyLevels` (line 1504). -/
def intermediateKeywords : List String :=
  ["integration", "cookbook", "workshop", "custom", "chat", "rag", "retrieval"]

/-- The advanced keyword list of `difficultyLevels` (line 1505). -/
def advancedKeywords : List String :=
  ["production", "deployment", "cicd", "pipeline", "agent", "langgraph",
   "distributed", "remote"]

/-- The expert keyword list of `difficultyLevels` (line 1506). -/
def expertKeywords : List String :=
  ["eval", "guardrail", "security", "optimization", "framework",
   "context-failure", "mcp", "auth"]

/-- The ordered difficulty tiers of `site_generator.py` (lines 1502-1507)
with their keyword lists, in object-insertion order. -/
def difficultyLevels : List (String × List String) :=
  [("beginner", beginnerKeywords), ("intermediate", intermediateKeywords),
   ("advanced", advancedKeywords), ("expert", expertKeywords)]

/-- `classifyDifficulty` from `site_generator.py` (lines 1509-1519): the
first tier whose keywords match the combined text, else `"intermediate"`
when the record has more than two topics, else `"beginner"`. -/
def classifyDifficulty (r : JsRepo) : String :=
  match firstMatch difficultyLevels (combinedText r) with
  | some level => level
  | none => if 2 < r.topics.length then "intermediate" else "beginner"

/-- Modelled from the claim text of C9: an explicit four-way ordered keyword
test (beginner, intermediate, advanced, expert) with the topic-count
fallback. -/
def classifyDifficultySpec (r : JsRepo) : String :=
  let text := combinedText r
  if beginnerKeywords.any (fun kw => includesSub text kw) then "beginner"
  else if intermediateKeywords.any (fun kw => includesSub text kw) then "intermediate"
  else if advancedKeywords.any (fun kw => includesSub text kw) then "advanced"
  else if expertKeywords.any (fun kw => includesSub text kw) then "expert"
  else if 2 < r.topics.length then "intermediate"
  else "beginner"

/-! ### Association-list lemmas -/

theorem alistLookup_upsert_self {β : Type} (k : String) (f : β → β) (d : β)
    (l : List (String × β)) :
    alistLookup k (upsert k f d l) =
      some (match alistLookup k l with | some v => f v | none => d) := by
  induction l with
  | nil => simp [upsert, alistLookup]
  | cons p rest ih =>
    obtain ⟨a, b⟩ := p
    by_cases h : a = k
    · subst h
      simp [upsert, alistLookup]
    · simp [upsert, alistLookup, h, ih]

theorem alistLookup_upsert_other {β : Type} (k k' : String) (f : β → β) (d : β)
    (l : List (String × β)) (hne : k' ≠ k) :
    alistLookup k' (upsert k f d l) = alistLookup k' l := by
  have hks : ¬ k = k' := fun hh => hne hh.symm
  induction l with
  | nil => simp [upsert, alistLookup, hks]
  | cons p rest ih =>
    obtain ⟨a, b⟩ := p
    by_cases h : a = k
    · subst h
      simp [upsert, alistLookup, hks]
    · by_cases h2 : a = k' <;> simp [upsert, alistLookup, h, h2, hne, ih]

theorem alistLookup_mem {β : Type} (k : String) (v : β) (l : List (String × β))
    (h : alistLookup k l = some v) : (k, v) ∈ l := by
  induction l with
  | nil => simp [alistLookup] at h
  | cons p rest ih =>
    obtain ⟨a, b⟩ := p
    by_cases hp : a = k
    · subst hp
      simp [alistLookup] at h
      subst h
      exact List.mem_cons_self _ _
    · simp [alistLookup, hp] at h
      exact List.mem_cons_of_mem _ (ih h)

theorem mem_unique_of_keys_nodup {β : Type} (k : String) (v w : β)
    (l : List (String × β)) (hnd : (keysOf l).Nodup)
    (h1 : (k, v) ∈ l) (h2 : (k, w) ∈ l) : v = w := by
  induction l with
  | nil => simp at h1
  | cons p rest ih =>
    obtain ⟨a, b⟩ := p
    have hnd2 : a ∉ keysOf rest ∧ (keysOf rest).Nodup := by
      simpa [keysOf] using hnd
    rcases List.mem_cons.mp h1 with h1h | h1t <;>
      rcases List.mem_cons.mp h2 with h2h | h2t
    · injection h1h with e1 e2
      injection h2h with e3 e4
      rw [e2, e4]
    · exfalso
      apply hnd2.1
      injection h1h with e1 e2
      rw [← e1]
      exact List.mem_map_of_mem Prod.fst h2t
    · exfalso
      apply hnd2.1
      injection h2h with e3 e4
      rw [← e3]
      exact List.mem_map_of_mem Prod.fst h1t
    · exact ih hnd2.2 h1t h2t

theorem keysOf_upsert {β : Type} (k : String) (f : β → β) (d : β)
    (l : List (String × β)) :
    keysOf (upsert k f d l) =
      if k ∈ keysOf l then keysOf l else keysOf l ++ [k] := by
  induction l with
  | nil => simp [upsert, keysOf]
  | cons p rest ih =>
    obtain ⟨a, b⟩ := p
    by_cases h : a = k
    · subst h
      simp [upsert, keysOf]
    · have h2 : k ≠ a := fun hh => h hh.symm
      by_cases hmem : k ∈ rest.map Prod.fst <;>
        simp [upsert, keysOf, h, h2, hmem] at ih ⊢ <;> simp [ih]

theorem keysOf_upsert_nodup {β : Type} (k : String) (f : β → β) (d : β)
    (l : List (String × β)) (h : (keysOf l).Nodup) :
    (keysOf (upsert k f d l)).Nodup := by
  rw [keysOf_upsert]
  by_cases hmem : k ∈ keysOf l
  · simpa [hmem] using h
  · simp [hmem, List.nodup_append, h]

theorem filter_ne_key_length {β : Type} (k : String) (v : β) (l : List (String × β))
    (hnd : (keysOf l).Nodup) (hmem : (k, v) ∈ l) :
    (l.filter (fun p => p.1 != k)).length + 1 = l.length := by
  induction l with
  | nil => simp at hmem
  | cons p rest ih =>
    obtain ⟨a, b⟩ := p
    have hnd2 : a ∉ keysOf rest ∧ (keysOf rest).Nodup := by
      simpa [keysOf] using hnd
    rcases List.mem_cons.mp hmem with hh | ht
    · injection hh with e1 e2
      subst e1
      have hf : rest.filter (fun p => p.1 != k) = rest := by
        apply List.filter_eq_self.mpr
        intro q hq
        have hqm : q.1 ∈ keysOf rest := List.mem_map_of_mem Prod.fst hq
        have : q.1 ≠ k := fun hqk => hnd2.1 (hqk ▸ hqm)
        simpa using this
      simp [List.filter_cons, hf]
    · have hkmem : k ∈ keysOf rest := by
        have := List.mem_map_of_mem Prod.fst ht
        simpa [keysOf] using this
      have hk : a ≠ k := fun hh => hnd2.1 (hh ▸ hkmem)
      have ihr := ih hnd2.2 ht
      simp [List.filter_cons, hk]
      omega

/-! ### Effect of `addToGroup` on counts, members and key sums -/

theorem groupCount_addToGroup (k k' : String) (r : Repo) (l : List (String × TopicNode)) :
    groupCount k' (addToGroup k r l) =
      groupCount k' l + if k' = k then 1 else 0 := by
  by_cases h : k' = k
  · subst h
    unfold groupCount addToGroup
    rw [alistLookup_upsert_self]
    cases alistLookup k' l <;> simp
  · unfold groupCount addToGroup
    rw [alistLookup_upsert_other _ _ _ _ _ h]
    simp [h]

theorem groupMembers_addToGroup (k k' : String) (r : Repo) (l : List (String × TopicNode)) :
    groupMembers k' (addToGroup k r l) =
      groupMembers k' l ++ if k' = k then [r] else [] := by
  by_cases h : k' = k
  · subst h
    unfold groupMembers addToGroup
    rw [alistLookup_upsert_self]
    cases alistLookup k' l <;> simp
  · unfold groupMembers addToGroup
    rw [alistLookup_upsert_other _ _ _ _ _ h]
    simp [h]

theorem sumCounts_addToGroup (k : String) (r : Repo) (l : List (String × TopicNode)) :
    sumCounts (addToGroup k r l) = sumCounts l + 1 := by
  unfold addToGroup
  induction l with
  | nil => simp [upsert, sumCounts]
  | cons p rest ih =>
    obtain ⟨a, b⟩ := p
    by_cases h : a = k
    · subst h
      simp [upsert, sumCounts]
      omega
    · simp [upsert, sumCounts, h] at ih ⊢
      omega

theorem counts_len_addToGroup (k : String) (r : Repo) (l : List (String × TopicNode))
    (h : ∀ p ∈ l, (p.2 : TopicNode).count = p.2.repositories.length) :
    ∀ p ∈ addToGroup k r l, (p.2 : TopicNode).count = p.2.repositories.length := by
  unfold addToGroup
  induction l with
  | nil =>
    intro p hp
    simp [upsert] at hp
    subst hp
    simp
  | cons q rest ih =>
    obtain ⟨a, b⟩ := q
    intro p hp
    by_cases hak : a = k
    · subst hak
      simp [upsert] at hp
      rcases hp with hp | hp
      · subst hp
        have hb := h (a, b) (List.mem_cons_self _ _)
        simp at hb
        simp [hb]
      · exact h p (List.mem_cons_of_mem _ hp)
    · simp [upsert, hak] at hp
      rcases hp with hp | hp
      · subst hp
        exact h (a, b) (List.mem_cons_self _ _)
      · exact ih (fun q hq => h q (List.mem_cons_of_mem _ hq)) p hp

theorem keysOf_addToGroup_nodup (k : String) (r : Repo) (l : List (String × TopicNode))
    (h : (keysOf l).Nodup) : (keysOf (addToGroup k r l)).Nodup :=
  keysOf_upsert_nodup _ _ _ _ h

/-! ### Effect of the per-record topic loop (lines 81-85) -/

theorem foldTopics_sumCounts (r : Repo) (ts : List String) (l : List (String × TopicNode)) :
    sumCounts (ts.foldl (fun acc t => addToGroup t r acc) l) = sumCounts l + ts.length := by
  induction ts generalizing l with
  | nil => simp
  | cons t ts ih =>
    rw [List.foldl_cons, ih, sumCounts_addToGroup]
    simp
    omega

theorem foldTopics_groupCount (r : Repo) (ts : List String) (l : List (String × TopicNode))
    (k : String) :
    groupCount k (ts.foldl (fun acc t => addToGroup t r acc) l) =
      groupCount k l + ts.count k := by
  induction ts generalizing l with
  | nil => simp
  | cons t ts ih =>
    rw [List.foldl_cons, ih, groupCount_addToGroup]
    by_cases h : k = t <;> simp [List.count_cons, h] <;> omega

theorem foldTopics_groupMembers (r : Repo) (ts : List String) (l : List (String × TopicNode))
    (k : String) :
    groupMembers k (ts.foldl (fun acc t => addToGroup t r acc) l) =
      groupMembers k l ++ List.replicate (ts.count k) r := by
  induction ts generalizing l with
  | nil => simp
  | cons t ts ih =>
    rw [List.foldl_cons, ih, groupMembers_addToGroup]
    by_cases h : k = t <;>
      simp [List.count_cons, h, List.replicate_succ, List.append_assoc]

theorem foldTopics_counts_len (r : Repo) (ts : List String) (l : List (String × TopicNode))
    (h : ∀ p ∈ l, (p.2 : TopicNode).count = p.2.repositories.length) :
    ∀ p ∈ ts.foldl (fun acc t => addToGroup t r acc) l,
      (p.2 : TopicNode).count = p.2.repositories.length := by
  induction ts generalizing l with
  | nil => simpa using h
  | cons t ts ih =>
    rw [List.foldl_cons]
    exact ih _ (counts_len_addToGroup _ _ _ h)

theorem foldTopics_keys_nodup (r : Repo) (ts : List String) (l : List (String × TopicNode))
    (h : (keysOf l).Nodup) :
    (keysOf (ts.foldl (fun acc t => addToGroup t r acc) l)).Nodup := by
  induction ts generalizing l with
  | nil => simpa using h
  | cons t ts ih =>
    rw [List.foldl_cons]
    exact ih _ (keysOf_addToGroup_nodup _ _ _ h)

/-! ### Effect of one full record (lines 81-92) on the topic groups -/

theorem sumCounts_stepTopics (r : Repo) (l : List (String × TopicNode)) :
    sumCounts (stepTopics r l) =
      sumCounts l + r.topics.length + (if r.topics = [] then 1 else 0) := by
  unfold stepTopics
  by_cases h : r.topics = []
  · simp [h, List.isEmpty_iff, sumCounts_addToGroup]
  · simp [h, List.isEmpty_iff, foldTopics_sumCounts]

theorem groupCount_stepTopics (r : Repo) (l : List (String × TopicNode)) (k : String) :
    groupCount k (stepTopics r l) =
      groupCount k l + r.topics.count k +
        (if r.topics = [] ∧ k = "uncategorized" then 1 else 0) := by
  unfold stepTopics
  by_cases h : r.topics = []
  · by_cases hk : k = "uncategorized"
    · subst hk
      simp [h, List.isEmpty_iff, groupCount_addToGroup]
    · simp [h, List.isEmpty_iff, groupCount_addToGroup, hk]
  · simp [h, List.isEmpty_iff, foldTopics_groupCount]

theorem groupMembers_stepTopics (r : Repo) (l : List (String × TopicNode)) (k : String) :
    groupMembers k (stepTopics r l) =
      groupMembers k l ++ List.replicate (r.topics.count k) r ++
        (if r.topics = [] ∧ k = "uncategorized" then [r] else []) := by
  unfold stepTopics
  by_cases h : r.topics = []
  · by_cases hk : k = "uncategorized"
    · subst hk
      simp [h, List.isEmpty_iff, groupMembers_addToGroup]
    · simp [h, List.isEmpty_iff, groupMembers_addToGroup, hk]
  · simp [h, List.isEmpty_iff, foldTopics_groupMembers]

theorem counts_len_stepTopics (r : Repo) (l : List (String × TopicNode))
    (h : ∀ p ∈ l, (p.2 : TopicNode).count = p.2.repositories.length) :
    ∀ p ∈ stepTopics r l, (p.2 : TopicNode).count = p.2.repositories.length := by
  unfold stepTopics
  by_cases he : r.topics.isEmpty
  · simp only [he, if_pos]
    exact counts_len_addToGroup _ _ _ (foldTopics_counts_len _ _ _ h)
  · simp only [he, if_neg, Bool.false_eq_true, not_false_iff]
    exact foldTopics_counts_len _ _ _ h

theorem keys_nodup_stepTopics (r : Repo) (l : List (String × TopicNode))
    (h : (keysOf l).Nodup) : (keysOf (stepTopics r l)).Nodup := by
  unfold stepTopics
  by_cases he : r.topics.isEmpty
  · simp only [he, if_pos]
    exact keysOf_addToGroup_nodup _ _ _ (foldTopics_keys_nodup _ _ _ h)
  · simp only [he, if_neg, Bool.false_eq_true, not_false_iff]
    exact foldTopics_keys_nodup _ _ _ h

/-! ### The loop over all records -/

theorem pureFold_sumCounts (rs : List Repo) (st : BuildState) :
    sumCounts (pureFold st rs).topics =
      sumCounts st.topics + (rs.map (fun r => r.topics.length)).sum +
        (rs.filter (fun r => r.topics.isEmpty)).length := by
  induction rs generalizing st with
  | nil => simp [pureFold]
  | cons r rs ih =>
    rw [pureFold, ih]
    have : (pureStep st r).topics = stepTopics r st.topics := rfl
    rw [this, sumCounts_stepTopics]
    by_cases h : r.topics = [] <;>
      simp [h, List.filter_cons, List.isEmpty_iff] <;> omega

theorem pureFold_groupCount_uncat (rs : List Repo) (st : BuildState)
    (hlit : ∀ r ∈ rs, "uncategorized" ∉ r.topics) :
    groupCount "uncategorized" (pureFold st rs).topics =
      groupCount "uncategorized" st.topics +
        (rs.filter (fun r => r.topics.isEmpty)).length := by
  induction rs generalizing st with
  | nil => simp [pureFold]
  | cons r rs ih =>
    rw [pureFold, ih _ (fun q hq => hlit q (List.mem_cons_of_mem _ hq))]
    have hst : (pureStep st r).topics = stepTopics r st.topics := rfl
    rw [hst, groupCount_stepTopics]
    have hcnt : r.topics.count "uncategorized" = 0 :=
      List.count_eq_zero.mpr (hlit r (List.mem_cons_self _ _))
    by_cases h : r.topics = [] <;>
      simp [h, hcnt, List.filter_cons, List.isEmpty_iff] <;> omega

theorem pureFold_uncatMembers (rs : List Repo) (st : BuildState)
    (hlit : ∀ r ∈ rs, "uncategorized" ∉ r.topics) :
    uncatMembers (pureFold st rs).topics =
      uncatMembers st.topics ++ rs.filter (fun r => r.topics.isEmpty) := by
  induction rs generalizing st with
  | nil => simp [pureFold]
  | cons r rs ih =>
    rw [pureFold, ih _ (fun q hq => hlit q (List.mem_cons_of_mem _ hq))]
    have hst : (pureStep st r).topics = stepTopics r st.topics := rfl
    unfold uncatMembers
    rw [hst, groupMembers_stepTopics]
    have hcnt : r.topics.count "uncategorized" = 0 :=
      List.count_eq_zero.mpr (hlit r (List.mem_cons_self _ _))
    by_cases h : r.topics = [] <;>
      simp [h, hcnt, List.filter_cons, List.isEmpty_iff]

theorem pureFold_counts_len (rs : List Repo) (st : BuildState)
    (h : ∀ p ∈ st.topics, (p.2 : TopicNode).count = p.2.repositories.length) :
    ∀ p ∈ (pureFold st rs).topics, (p.2 : TopicNode).count = p.2.repositories.length := by
  induction rs generalizing st with
  | nil => simpa [pureFold] using h
  | cons r rs ih =>
    rw [pureFold]
    exact ih _ (counts_len_stepTopics _ _ h)

theorem pureFold_topics_keys_nodup (rs : List Repo) (st : BuildState)
    (h : (keysOf st.topics).Nodup) : (keysOf (pureFold st rs).topics).Nodup := by
  induction rs generalizing st with
  | nil => simpa [pureFold] using h
  | cons r rs ih =>
    rw [pureFold]
    exact ih _ (keys_nodup_stepTopics _ _ h)

theorem pureFold_langs_keys_nodup (rs : List Repo) (st : BuildState)
    (h : (keysOf st.langs).Nodup) : (keysOf (pureFold st rs).langs).Nodup := by
  induction rs generalizing st with
  | nil => simpa [pureFold] using h
  | cons r rs ih =>
    rw [pureFold]
    exact ih _ (keysOf_upsert_nodup _ _ _ _ h)

theorem pureFold_conns (rs : List Repo) (st : BuildState) :
    (pureFold st rs).conns = st.conns ++ rs.filterMap connProj := by
  induction rs generalizing st with
  | nil => simp [pureFold]
  | cons r rs ih =>
    rw [pureFold, ih]
    have hst : (pureStep st r).conns = st.conns ++ (connProj r).toList := rfl
    rw [hst, List.filterMap_cons]
    cases connProj r <;> simp

/-! ### Success and failure of the raising loop -/

theorem processRepo_ok (st : BuildState) (r : Repo) (h : ¬ badRepo r) :
    processRepo st r = .ok (pureStep st r) := by
  unfold processRepo pureStep connProj
  by_cases hm : 1 < r.topics.length
  · have hnu : ¬ (r.name = none ∨ r.url = none) := fun hh => h ⟨hm, hh⟩
    push_neg at hnu
    obtain ⟨n, hn⟩ := Option.ne_none_iff_exists.mp hnu.1
    obtain ⟨u, hu⟩ := Option.ne_none_iff_exists.mp hnu.2
    simp [hm, ← hn, ← hu]
  · simp [hm]

theorem processRepo_error (st : BuildState) (r : Repo) (h : badRepo r) :
    ∃ e, processRepo st r = .error e := by
  obtain ⟨hm, hnu⟩ := h
  unfold processRepo
  rcases hnu with hn | hu
  · exact ⟨"KeyError: name", by simp [hm, hn]⟩
  · cases hn : r.name with
    | none => exact ⟨"KeyError: name", by simp [hm, hn]⟩
    | some n => exact ⟨"KeyError: url", by simp [hm, hn, hu]⟩

theorem buildFold_ok_of_good (rs : List Repo) (st : BuildState)
    (h : ∀ r ∈ rs, ¬ badRepo r) : buildFold st rs = .ok (pureFold st rs) := by
  induction rs generalizing st with
  | nil => simp [buildFold, pureFold]
  | cons r rs ih =>
    rw [buildFold, processRepo_ok _ _ (h r (List.mem_cons_self _ _)), pureFold]
    exact ih _ (fun q hq => h q (List.mem_cons_of_mem _ hq))

theorem buildFold_ok_elim (rs : List Repo) (st st' : BuildState)
    (h : buildFold st rs = .ok st') : st' = pureFold st rs := by
  induction rs generalizing st with
  | nil =>
    simp [buildFold] at h
    simp [pureFold, h]
  | cons r rs ih =>
    rw [buildFold] at h
    by_cases hb : badRepo r
    · obtain ⟨e, he⟩ := processRepo_error st r hb
      rw [he] at h
      simp at h
    · rw [processRepo_ok _ _ hb] at h
      rw [pureFold]
      exact ih _ h

theorem buildFold_error_of_bad (rs : List Repo) (st : BuildState) (r : Repo)
    (hr : r ∈ rs) (hb : badRepo r) : ∃ e, buildFold st rs = .error e := by
  induction rs generalizing st with
  | nil => simp at hr
  | cons r0 rs ih =>
    rcases List.mem_cons.mp hr with hh | ht
    · subst hh
      obtain ⟨e, he⟩ := processRepo_error st r hb
      exact ⟨e, by rw [buildFold, he]⟩
    · cases hp : processRepo st r0 with
      | error e => exact ⟨e, by rw [buildFold, hp]⟩
      | ok st1 =>
        obtain ⟨e, he⟩ := ih st1 ht
        refine ⟨e, ?_⟩
        rw [buildFold, hp]
        exact he

theorem buildFold_ok_good (rs : List Repo) (st st' : BuildState)
    (h : buildFold st rs = .ok st') : ∀ r ∈ rs, ¬ badRepo r := by
  intro r hr hb
  obtain ⟨e, he⟩ := buildFold_error_of_bad rs st r hr hb
  rw [he] at h
  simp at h

theorem buildHierarchy_ok_elim (records : List Repo) (h : HierarchyData)
    (hok : buildHierarchy records = .ok h) : h = pureHierarchy records := by
  unfold buildHierarchy at hok
  cases hb : buildFold initState records with
  | error e =>
    rw [show ({ topics := [], langs := [], conns := [] } : BuildState) = initState from rfl,
      hb] at hok
    simp at hok
  | ok st =>
    rw [show ({ topics := [], langs := [], conns := [] } : BuildState) = initState from rfl,
      hb] at hok
    simp at hok
    rw [buildFold_ok_elim _ _ _ hb] at hok
    rw [← hok]
    rfl

theorem buildHierarchy_ok_good (records : List Repo) (h : HierarchyData)
    (hok : buildHierarchy records = .ok h) : ∀ r ∈ records, ¬ badRepo r := by
  unfold buildHierarchy at hok
  cases hb : buildFold initState records with
  | error e =>
    rw [show ({ topics := [], langs := [], conns := [] } : BuildState) = initState from rfl,
      hb] at hok
    simp at hok
  | ok st => exact buildFold_ok_good _ _ _ hb

theorem buildHierarchy_ok_of_good (records : List Repo)
    (h : ∀ r ∈ records, ¬ badRepo r) :
    buildHierarchy records = .ok (pureHierarchy records) := by
  unfold buildHierarchy pureHierarchy
  rw [buildFold_ok_of_good _ _ h]

theorem buildHierarchy_error_of_bad (records : List Repo) (r : Repo)
    (hr : r ∈ records) (hb : badRepo r) : ∃ e, buildHierarchy records = .error e := by
  obtain ⟨e, he⟩ := buildFold_error_of_bad records initState r hr hb
  exact ⟨e, by unfold buildHierarchy; rw [show ({ topics := [], langs := [], conns := [] } :
    BuildState) = initState from rfl, he]⟩

/-! ### The stable descending sort of `_calculate_stats` -/

theorem insertDescBy_perm {α : Type} (key : α → Nat) (x : α) (l : List α) :
    (insertDescBy key x l).Perm (x :: l) := by
  induction l with
  | nil => simp [insertDescBy]
  | cons y ys ih =>
    by_cases h : key x < key y
    · rw [insertDescBy, if_pos h]
      exact (ih.cons y).trans (List.Perm.swap x y ys)
    · rw [insertDescBy, if_neg h]

theorem sortDescBy_perm {α : Type} (key : α → Nat) (l : List α) :
    (sortDescBy key l).Perm l := by
  induction l with
  | nil => simp [sortDescBy]
  | cons x xs ih =>
    rw [sortDescBy]
    exact (insertDescBy_perm key x (sortDescBy key xs)).trans (ih.cons x)

theorem mem_insertDescBy {α : Type} (key : α → Nat) (x z : α) (l : List α)
    (h : z ∈ insertDescBy key x l) : z = x ∨ z ∈ l := by
  have := (insertDescBy_perm key x l).mem_iff.mp h
  simpa using this

theorem insertDescBy_pairwise {α : Type} (key : α → Nat) (x : α) (l : List α)
    (h : l.Pairwise (fun a b => key b ≤ key a)) :
    (insertDescBy key x l).Pairwise (fun a b => key b ≤ key a) := by
  induction l with
  | nil => simp [insertDescBy]
  | cons y ys ih =>
    rcases List.pairwise_cons.mp h with ⟨hy, hys⟩
    by_cases hlt : key x < key y
    · rw [insertDescBy, if_pos hlt]
      refine List.pairwise_cons.mpr ⟨?_, ih hys⟩
      intro z hz
      rcases mem_insertDescBy key x z ys hz with hz | hz
      · rw [hz]; omega
      · exact hy z hz
    · rw [insertDescBy, if_neg hlt]
      refine List.pairwise_cons.mpr ⟨?_, h⟩
      intro z hz
      rcases List.mem_cons.mp hz with hz | hz
      · rw [hz]; omega
      · have := hy z hz; omega

theorem sortDescBy_pairwise {α : Type} (key : α → Nat) (l : List α) :
    (sortDescBy key l).Pairwise (fun a b => key b ≤ key a) := by
  induction l with
  | nil => simp [sortDescBy]
  | cons x xs ih => exact insertDescBy_pairwise key x _ ih

theorem insertDescBy_filter {α : Type} (key : α → Nat) (x : α) (l : List α) (c : Nat) :
    (insertDescBy key x l).filter (fun a => key a == c) =
      if key x = c then x :: l.filter (fun a => key a == c)
      else l.filter (fun a => key a == c) := by
  induction l with
  | nil =>
    by_cases h : key x = c <;> simp [insertDescBy, List.filter_cons, h]
  | cons y ys ih =>
    by_cases hlt : key x < key y
    · rw [insertDescBy, if_pos hlt]
      by_cases hx : key x = c
      · have hy : ¬ key y = c := by omega
        simp [List.filter_cons, hx, hy, ih]
      · simp [List.filter_cons, hx, ih]
    · rw [insertDescBy, if_neg hlt]
      by_cases hx : key x = c <;> simp [List.filter_cons, hx]

theorem sortDescBy_filter {α : Type} (key : α → Nat) (l : List α) (c : Nat) :
    (sortDescBy key l).filter (fun a => key a == c) =
      l.filter (fun a => key a == c) := by
  induction l with
  | nil => simp [sortDescBy]
  | cons x xs ih =>
    rw [sortDescBy, insertDescBy_filter]
    by_cases hx : key x = c <;> simp [List.filter_cons, hx, ih]

theorem sortDescBy_head_max {α : Type} (key : α → Nat) (l : List α) (x : α)
    (hx : x ∈ l) (hmax : ∀ y ∈ l, y ≠ x → key y < key x) :
    (sortDescBy key l).head? = some x := by
  have hperm := sortDescBy_perm key l
  cases hs : sortDescBy key l with
  | nil =>
    exfalso
    have : l = [] := List.Perm.eq_nil (hs ▸ hperm).symm
    simp [this] at hx
  | cons z zs =>
    have hsorted := sortDescBy_pairwise key l
    rw [hs] at hsorted hperm
    have hz : z ∈ l := hperm.mem_iff.mp (List.mem_cons_self _ _)
    by_cases hzx : z = x
    · simp [hzx]
    · exfalso
      have hxz : x ∈ z :: zs := hperm.mem_iff.mpr hx
      rcases List.mem_cons.mp hxz with hh | ht
      · exact hzx (hh.symm)
      · have h1 : key x ≤ key z :=
          (List.pairwise_cons.mp hsorted).1 x ht
        have h2 : key z < key x := hmax z hz hzx
        omega

/-! ### Remaining helper lemmas -/

theorem head_take_map {α β : Type} (f : α → β) (l : List α) :
    ((l.take 10).map f).head? = l.head?.map f := by
  cases l <;> rfl

theorem filterMap_connProj_length (rs : List Repo) (h : ∀ r ∈ rs, ¬ badRepo r) :
    (rs.filterMap connProj).length =
      (rs.filter (fun r => 1 < r.topics.length)).length := by
  induction rs with
  | nil => simp
  | cons r rs ih =>
    have hr := h r (List.mem_cons_self _ _)
    have ihr := ih (fun q hq => h q (List.mem_cons_of_mem _ hq))
    rw [List.filterMap_cons, List.filter_cons]
    by_cases hm : 1 < r.topics.length
    · have hnu : ¬ (r.name = none ∨ r.url = none) := fun hh => hr ⟨hm, hh⟩
      push_neg at hnu
      obtain ⟨n, hn⟩ := Option.ne_none_iff_exists.mp hnu.1
      obtain ⟨u, hu⟩ := Option.ne_none_iff_exists.mp hnu.2
      have hc : connProj r = some { repository := n, topics := r.topics, url := u } := by
        unfold connProj
        simp [hm, ← hn, ← hu]
      simp [hc, hm, ihr]
    · have hc : connProj r = none := by
        unfold connProj
        simp [hm]
      simp [hc, hm, ihr]

theorem firstMatch_mem (priority : List (String × List String)) (text cat : String)
    (h : firstMatch priority text = some cat) : cat ∈ priority.map Prod.fst := by
  induction priority with
  | nil => simp [firstMatch] at h
  | cons p rest ih =>
    obtain ⟨c0, kws⟩ := p
    rw [firstMatch] at h
    by_cases hc : kws.any (fun kw => includesSub text kw)
    · simp [hc] at h
      simp [h]
    · simp [hc] at h
      exact List.mem_cons_of_mem _ (ih h)

/-! ### The claims -/

/-- C1, counterexample to the claim as stated: for the one-record batch
whose record lists the literal topic `"uncategorized"`, `build_hierarchy`
succeeds, the sum of group counts minus the count of the (present)
`"uncategorized"` group is `0`, yet the sum of topic-list lengths is `1`. -/
theorem c1_sum_counts_cex :
    buildHierarchy [exLiteralUncat] = .ok (pureHierarchy [exLiteralUncat]) ∧
    sumCounts (pureHierarchy [exLiteralUncat]).topics -
      groupCount "uncategorized" (pureHierarchy [exLiteralUncat]).topics = 0 ∧
    (([exLiteralUncat] : List Repo).map (fun r => r.topics.length)).sum = 1 :=
  ⟨rfl, rfl, rfl⟩

/-- C1, amended: for every record batch in which no record's topic list
contains the literal string `"uncategorized"`, whenever `build_hierarchy`
succeeds, the sum of `count` over all topic groups minus the count of the
`"uncategorized"` group (zero when absent) equals the sum over all input
records of the lengths of their topic lists. -/
theorem c1_sum_counts (records : List Repo) (h : HierarchyData)
    (hok : buildHierarchy records = .ok h)
    (hlit : ∀ r ∈ records, "uncategorized" ∉ r.topics) :
    sumCounts h.topics - groupCount "uncategorized" h.topics =
      (records.map (fun r => r.topics.length)).sum := by
  rw [buildHierarchy_ok_elim records h hok]
  rw [show (pureHierarchy records).topics = (pureFold initState records).topics from rfl]
  rw [pureFold_sumCounts, pureFold_groupCount_uncat _ _ hlit]
  simp [initState, sumCounts, groupCount, alistLookup]

/-- C1, witness: the amended equation instantiated on a concrete
one-record batch. -/
theorem c1_sum_counts_witness :
    (buildHierarchy [exOneTopic] = .ok (pureHierarchy [exOneTopic]) ∧
      ∀ r ∈ [exOneTopic], "uncategorized" ∉ r.topics) ∧
    sumCounts (pureHierarchy [exOneTopic]).topics -
      groupCount "uncategorized" (pureHierarchy [exOneTopic]).topics =
        (([exOneTopic] : List Repo).map (fun r => r.topics.length)).sum :=
  ⟨⟨rfl, by decide⟩, c1_sum_counts [exOneTopic] _ rfl (by decide)⟩

/-- C2, counterexample to the claim as stated: the record listing the
literal topic `"uncategorized"` is a member of the `"uncategorized"` group
produced by `build_hierarchy` although its topic list is non-empty. -/
theorem c2_uncategorized_iff_cex :
    exLiteralUncat ∈ uncatMembers (pureHierarchy [exLiteralUncat]).topics ∧
    exLiteralUncat.topics ≠ [] ∧
    buildHierarchy [exLiteralUncat] = .ok (pureHierarchy [exLiteralUncat]) :=
  ⟨by decide, by decide, rfl⟩

/-- C2, amended: for every record batch in which no record's topic list
contains the literal string `"uncategorized"`, whenever `build_hierarchy`
succeeds, a record is a member of the `"uncategorized"` group if and only
if its topic list is empty. -/
theorem c2_uncategorized_iff (records : List Repo) (h : HierarchyData)
    (hok : buildHierarchy records = .ok h)
    (hlit : ∀ r ∈ records, "uncategorized" ∉ r.topics) :
    ∀ r ∈ records, (r ∈ uncatMembers h.topics ↔ r.topics = []) := by
  rw [buildHierarchy_ok_elim records h hok]
  rw [show (pureHierarchy records).topics = (pureFold initState records).topics from rfl]
  rw [pureFold_uncatMembers _ _ hlit]
  intro r hr
  simp [initState, uncatMembers, groupMembers, alistLookup, List.mem_filter,
    List.isEmpty_iff, hr]

/-- C2, witness: the amended membership equivalence instantiated on a
concrete two-record batch. -/
theorem c2_uncategorized_iff_witness :
    (buildHierarchy [exNoTopics, exOneTopic] = .ok (pureHierarchy [exNoTopics, exOneTopic]) ∧
      ∀ r ∈ [exNoTopics, exOneTopic], "uncategorized" ∉ r.topics) ∧
    ∀ r ∈ [exNoTopics, exOneTopic],
      (r ∈ uncatMembers (pureHierarchy [exNoTopics, exOneTopic]).topics ↔ r.topics = []) :=
  ⟨⟨rfl, by decide⟩, c2_uncategorized_iff [exNoTopics, exOneTopic] _ rfl (by decide)⟩

/-- C3: whenever `build_hierarchy` succeeds, every topic group (including
`"uncategorized"`) has its `count` field equal to the length of its
`repositories` list. -/
theorem c3_count_eq_members (records : List Repo) (h : HierarchyData)
    (hok : buildHierarchy records = .ok h) :
    ∀ p ∈ h.topics, (p.2 : TopicNode).count = p.2.repositories.length := by
  rw [buildHierarchy_ok_elim records h hok]
  exact pureFold_counts_len records initState (by simp [initState])

/-- C3, witness: the invariant instantiated on a concrete three-record
batch. -/
theorem c3_count_eq_members_witness :
    buildHierarchy [exNoTopics, exOneTopic, exTwoTopics] =
      .ok (pureHierarchy [exNoTopics, exOneTopic, exTwoTopics]) ∧
    ∀ p ∈ (pureHierarchy [exNoTopics, exOneTopic, exTwoTopics]).topics,
      (p.2 : TopicNode).count = p.2.repositories.length :=
  ⟨rfl, c3_count_eq_members [exNoTopics, exOneTopic, exTwoTopics] _ rfl⟩

/-- C4: whenever `build_hierarchy` succeeds, `topic_connections` contains
exactly the projection of the records with more than one topic, in input
order (one entry per such record, none for records with zero or one
topic), and the stats field `repos_with_multiple_topics` equals the length
of `topic_connections`. -/
theorem c4_connections (records : List Repo) (h : HierarchyData)
    (hok : buildHierarchy records = .ok h) :
    h.topic_connections = records.filterMap connProj ∧
    h.topic_connections.length =
      (records.filter (fun r => 1 < r.topics.length)).length ∧
    h.stats.repos_with_multiple_topics = h.topic_connections.length := by
  have hgood := buildHierarchy_ok_good records h hok
  rw [buildHierarchy_ok_elim records h hok]
  have hconns : (pureHierarchy records).topic_connections = records.filterMap connProj := by
    rw [show (pureHierarchy records).topic_connections =
      (pureFold initState records).conns from rfl, pureFold_conns]
    simp [initState]
  refine ⟨hconns, ?_, ?_⟩
  · rw [hconns]
    exact filterMap_connProj_length records hgood
  · rw [hconns, filterMap_connProj_length records hgood]
    rfl

/-- C4, witness: the cross-reference contract instantiated on a concrete
three-record batch. -/
theorem c4_connections_witness :
    buildHierarchy [exNoTopics, exOneTopic, exTwoTopics] =
      .ok (pureHierarchy [exNoTopics, exOneTopic, exTwoTopics]) ∧
    ((pureHierarchy [exNoTopics, exOneTopic, exTwoTopics]).topic_connections =
      ([exNoTopics, exOneTopic, exTwoTopics] : List Repo).filterMap connProj ∧
    (pureHierarchy [exNoTopics, exOneTopic, exTwoTopics]).topic_connections.length =
      (([exNoTopics, exOneTopic, exTwoTopics] : List Repo).filter
        (fun r => 1 < r.topics.length)).length ∧
    (pureHierarchy [exNoTopics, exOneTopic, exTwoTopics]).stats.repos_with_multiple_topics =
      (pureHierarchy [exNoTopics, exOneTopic, exTwoTopics]).topic_connections.length) :=
  ⟨rfl, c4_connections [exNoTopics, exOneTopic, exTwoTopics] _ rfl⟩

/-- C5, counterexample to the claim as stated: a one-record batch whose
record lacks both mandatory fields but has an empty topic list is processed
without any error — `build_hierarchy` returns a complete hierarchy rather
than raising. -/
theorem c5_missing_field_cex :
    buildHierarchy [exMissingName] = .ok (pureHierarchy [exMissingName]) ∧
    exMissingName.name = none ∧ exMissingName.url = none ∧
    exMissingName.topics.length ≤ 1 :=
  ⟨rfl, rfl, rfl, by decide⟩

/-- C5, amended: `build_hierarchy` raises a fatal error (and hence produces
no hierarchy) whenever the batch contains a record that lacks `name` or
`url` and has more than one topic; a record lacking the mandatory fields
with at most one topic does not by itself abort the batch. -/
theorem c5_missing_field_error (records : List Repo) (r : Repo) (hr : r ∈ records)
    (hbad : 1 < r.topics.length ∧ (r.name = none ∨ r.url = none)) :
    ∃ e, buildHierarchy records = .error e :=
  buildHierarchy_error_of_bad records r hr hbad

/-- C5, witness: the amended failure condition instantiated on a concrete
batch whose record misses `name` and has two topics. -/
theorem c5_missing_field_error_witness :
    (exBadRecord ∈ [exBadRecord] ∧ 1 < exBadRecord.topics.length ∧
      (exBadRecord.name = none ∨ exBadRecord.url = none)) ∧
    ∃ e, buildHierarchy [exBadRecord] = .error e :=
  ⟨⟨by decide, by decide, by decide⟩,
    c5_missing_field_error [exBadRecord] exBadRecord (by decide) ⟨by decide, by decide⟩⟩

/-- C6, counterexample to the claim as stated: a single record listing the
topic `"a"` twice raises the count (and the member count) of group `"a"`
by two, so a group is not incremented at most once per record. -/
theorem c6_no_double_count_cex :
    buildHierarchy [exDupTopics] = .ok (pureHierarchy [exDupTopics]) ∧
    exDupTopics.topics.count "a" = 2 ∧
    groupCount "a" (pureHierarchy [exDupTopics]).topics = 2 ∧
    (groupMembers "a" (pureHierarchy [exDupTopics]).topics).length = 2 :=
  ⟨rfl, rfl, rfl, rfl⟩

/-- C6, amended: processing one record grows each topic group's count and
membership by exactly the number of occurrences of that group's key in the
record's topic list (plus one for `"uncategorized"` when the list is
empty) — in particular by exactly one per distinct listed topic when the
list has no duplicates. -/
theorem c6_per_record_increment (st : BuildState) (r : Repo) (k : String) :
    groupCount k (pureStep st r).topics =
      groupCount k st.topics + r.topics.count k +
        (if r.topics = [] ∧ k = "uncategorized" then 1 else 0) ∧
    (groupMembers k (pureStep st r).topics).length =
      (groupMembers k st.topics).length + r.topics.count k +
        (if r.topics = [] ∧ k = "uncategorized" then 1 else 0) := by
  constructor
  · rw [show (pureStep st r).topics = stepTopics r st.topics from rfl,
      groupCount_stepTopics]
  · rw [show (pureStep st r).topics = stepTopics r st.topics from rfl,
      groupMembers_stepTopics]
    by_cases h : r.topics = [] ∧ k = "uncategorized" <;> simp [h]

/-- C7: whenever `build_hierarchy` succeeds, `top_topics` and
`top_languages` have at most ten entries, are sorted by descending count,
are exactly the projections of the first ten entries of the stable
descending sort of the insertion-ordered group mappings, and that sort
preserves the relative (first-insertion) order of groups of equal count. -/
theorem c7_top_rankings (records : List Repo) (h : HierarchyData)
    (hok : buildHierarchy records = .ok h) :
    h.stats.top_topics.length ≤ 10 ∧
    h.stats.top_languages.length ≤ 10 ∧
    h.stats.top_topics.Pairwise (fun a b => b.count ≤ a.count) ∧
    h.stats.top_languages.Pairwise (fun a b => b.count ≤ a.count) ∧
    h.stats.top_topics =
      ((sortDescBy (fun p => p.2.count) h.topics).take 10).map
        (fun p => { name := p.1, count := p.2.count }) ∧
    h.stats.top_languages =
      ((sortDescBy (fun p => p.2.length) h.languages).take 10).map
        (fun p => { name := p.1, count := p.2.length }) ∧
    (∀ c, (sortDescBy (fun p => (p.2 : TopicNode).count) h.topics).filter
        (fun p => p.2.count == c) =
      h.topics.filter (fun p => p.2.count == c)) ∧
    (∀ c, (sortDescBy (fun p => (p.2 : List Repo).length) h.languages).filter
        (fun p => p.2.length == c) =
      h.languages.filter (fun p => p.2.length == c)) := by
  rw [buildHierarchy_ok_elim records h hok]
  refine ⟨?_, ?_, ?_, ?_, rfl, rfl, ?_, ?_⟩
  · simp [pureHierarchy, calculateStats]
  · simp [pureHierarchy, calculateStats]
  · have hs := sortDescBy_pairwise (fun p => (p.2 : TopicNode).count)
      (pureFold initState records).topics
    have ht := List.Pairwise.sublist (List.take_sublist 10 _) hs
    exact List.pairwise_map.mpr ht
  · have hs := sortDescBy_pairwise (fun p => (p.2 : List Repo).length)
      (pureFold initState records).langs
    have ht := List.Pairwise.sublist (List.take_sublist 10 _) hs
    exact List.pairwise_map.mpr ht
  · intro c
    exact sortDescBy_filter _ _ c
  · intro c
    exact sortDescBy_filter _ _ c

/-- C7, witness: the ranking contract instantiated on a concrete
three-record batch. -/
theorem c7_top_rankings_witness :
    buildHierarchy [exNoTopics, exOneTopic, exTwoTopics] =
      .ok (pureHierarchy [exNoTopics, exOneTopic, exTwoTopics]) ∧
    ((pureHierarchy [exNoTopics, exOneTopic, exTwoTopics]).stats.top_topics.length ≤ 10 ∧
    (pureHierarchy [exNoTopics, exOneTopic, exTwoTopics]).stats.top_languages.length ≤ 10 ∧
    (pureHierarchy [exNoTopics, exOneTopic, exTwoTopics]).stats.top_topics.Pairwise
      (fun a b => b.count ≤ a.count) ∧
    (pureHierarchy [exNoTopics, exOneTopic, exTwoTopics]).stats.top_languages.Pairwise
      (fun a b => b.count ≤ a.count) ∧
    (pureHierarchy [exNoTopics, exOneTopic, exTwoTopics]).stats.top_topics =
      ((sortDescBy (fun p => p.2.count)
        (pureHierarchy [exNoTopics, exOneTopic, exTwoTopics]).topics).take 10).map
          (fun p => { name := p.1, count := p.2.count }) ∧
    (pureHierarchy [exNoTopics, exOneTopic, exTwoTopics]).stats.top_languages =
      ((sortDescBy (fun p => p.2.length)
        (pureHierarchy [exNoTopics, exOneTopic, exTwoTopics]).languages).take 10).map
          (fun p => { name := p.1, count := p.2.length }) ∧
    (∀ c, (sortDescBy (fun p => (p.2 : TopicNode).count)
        (pureHierarchy [exNoTopics, exOneTopic, exTwoTopics]).topics).filter
          (fun p => p.2.count == c) =
      (pureHierarchy [exNoTopics, exOneTopic, exTwoTopics]).topics.filter
        (fun p => p.2.count == c)) ∧
    (∀ c, (sortDescBy (fun p => (p.2 : List Repo).length)
        (pureHierarchy [exNoTopics, exOneTopic, exTwoTopics]).languages).filter
          (fun p => p.2.length == c) =
      (pureHierarchy [exNoTopics, exOneTopic, exTwoTopics]).languages.filter
        (fun p => p.2.length == c))) :=
  ⟨rfl, c7_top_rankings [exNoTopics, exOneTopic, exTwoTopics] _ rfl⟩

/-- C8, counterexample to the claim as stated: a record named `".GitHub"`
(not literally `".github"`) whose description contains the keyword
`"tracing"` is still excluded by the classifier (it lower-cases the name
before the comparison), while the claim's otherwise-branch prescribes the
first matching category, `"langsmith"`. -/
theorem c8_product_classifier_cex :
    classifyRepoByProduct { name := ".GitHub", description := some "tracing", topics := [] } =
      none ∧
    classifyByProductClaim { name := ".GitHub", description := some "tracing", topics := [] } =
      some "langsmith" :=
  ⟨by decide, by decide⟩

/-- C8, amended: the product classifier returns `none` whenever the
record's name lower-cases to `".github"`, and otherwise the first category
in the fixed priority order (langsmith, langgraph, langchain) whose keyword
set has a substring match in the lower-cased space-joined concatenation of
name, description and topics, `none` when no category matches. -/
theorem c8_product_classifier (r : JsRepo) :
    classifyRepoByProduct r = classifyByProductAmended r := rfl

/-- C9: the difficulty classifier returns exactly one tier — the first of
beginner, intermediate, advanced, expert whose keyword set has a substring
match in the lower-cased combined text, falling back to `"intermediate"`
for records with more than two topics and `"beginner"` otherwise — and its
result is always one of the four tiers. -/
theorem c9_difficulty_classifier (r : JsRepo) :
    classifyDifficulty r = classifyDifficultySpec r ∧
    classifyDifficulty r ∈ ["beginner", "intermediate", "advanced", "expert"] := by
  have heq : classifyDifficulty r = classifyDifficultySpec r := by
    unfold classifyDifficulty classifyDifficultySpec
    simp only [difficultyLevels, firstMatch]
    cases h1 : beginnerKeywords.any (fun kw => includesSub (combinedText r) kw) <;>
      cases h2 : intermediateKeywords.any (fun kw => includesSub (combinedText r) kw) <;>
        cases h3 : advancedKeywords.any (fun kw => includesSub (combinedText r) kw) <;>
          cases h4 : expertKeywords.any (fun kw => includesSub (combinedText r) kw) <;>
            simp [h1, h2, h3, h4]
  refine ⟨heq, ?_⟩
  unfold classifyDifficulty
  cases hm : firstMatch difficultyLevels (combinedText r) with
  | some level =>
    have := firstMatch_mem _ _ _ hm
    simpa [difficultyLevels] using this
  | none => by_cases ht : 2 < r.topics.length <;> simp [ht]

/-- C10: whenever `build_hierarchy` succeeds, the `"uncategorized"` topic
group and the `"Unknown"` language group are excluded from `total_topics`
and `total_languages` (the totals undercount the mappings by exactly one
when the groups are present), yet they are not excluded from the rankings:
when their member count strictly exceeds every other group's, they appear
as the first entry of `top_topics` and `top_languages` respectively. -/
theorem c10_sentinel_groups_ranked (records : List Repo) (h : HierarchyData)
    (hok : buildHierarchy records = .ok h)
    (nodeU : TopicNode)
    (hU : alistLookup "uncategorized" h.topics = some nodeU)
    (hmaxT : ∀ p ∈ h.topics, p.1 ≠ "uncategorized" → (p.2 : TopicNode).count < nodeU.count)
    (reposUnk : List Repo)
    (hL : alistLookup "Unknown" h.languages = some reposUnk)
    (hmaxL : ∀ p ∈ h.languages, p.1 ≠ "Unknown" → (p.2 : List Repo).length < reposUnk.length) :
    h.stats.top_topics.head? = some { name := "uncategorized", count := nodeU.count } ∧
    h.stats.top_languages.head? = some { name := "Unknown", count := reposUnk.length } ∧
    h.stats.total_topics + 1 = h.topics.length ∧
    h.stats.total_languages + 1 = h.languages.length := by
  have hsub := buildHierarchy_ok_elim records h hok
  subst hsub
  have hndT : (keysOf (pureFold initState records).topics).Nodup :=
    pureFold_topics_keys_nodup records initState (by simp [initState, keysOf])
  have hndL : (keysOf (pureFold initState records).langs).Nodup :=
    pureFold_langs_keys_nodup records initState (by simp [initState, keysOf])
  have hTtop : (pureHierarchy records).topics = (pureFold initState records).topics := rfl
  have hLtop : (pureHierarchy records).languages = (pureFold initState records).langs := rfl
  rw [hTtop] at hU hmaxT
  rw [hLtop] at hL hmaxL
  have hxT : ("uncategorized", nodeU) ∈ (pureFold initState records).topics :=
    alistLookup_mem _ _ _ hU
  have hxL : ("Unknown", reposUnk) ∈ (pureFold initState records).langs :=
    alistLookup_mem _ _ _ hL
  have hmaxT2 : ∀ y ∈ (pureFold initState records).topics,
      y ≠ ("uncategorized", nodeU) →
        (fun p => (p.2 : TopicNode).count) y <
          (fun p => (p.2 : TopicNode).count) ("uncategorized", nodeU) := by
    rintro ⟨k0, v0⟩ hy hne
    by_cases hk : k0 = "uncategorized"
    · subst hk
      have := mem_unique_of_keys_nodup _ v0 nodeU _ hndT hy hxT
      exact absurd (by rw [this]) hne
    · exact hmaxT (k0, v0) hy hk
  have hmaxL2 : ∀ y ∈ (pureFold initState records).langs,
      y ≠ ("Unknown", reposUnk) →
        (fun p => (p.2 : List Repo).length) y <
          (fun p => (p.2 : List Repo).length) ("Unknown", reposUnk) := by
    rintro ⟨k0, v0⟩ hy hne
    by_cases hk : k0 = "Unknown"
    · subst hk
      have := mem_unique_of_keys_nodup _ v0 reposUnk _ hndL hy hxL
      exact absurd (by rw [this]) hne
    · exact hmaxL (k0, v0) hy hk
  have hheadT := sortDescBy_head_max (fun p => (p.2 : TopicNode).count) _ _ hxT hmaxT2
  have hheadL := sortDescBy_head_max (fun p => (p.2 : List Repo).length) _ _ hxL hmaxL2
  refine ⟨?_, ?_, ?_, ?_⟩
  · rw [show (pureHierarchy records).stats.top_topics =
      ((sortDescBy (fun p => (p.2 : TopicNode).count)
        (pureFold initState records).topics).take 10).map
          (fun p => { name := p.1, count := p.2.count }) from rfl]
    rw [head_take_map, hheadT]
    rfl
  · rw [show (pureHierarchy records).stats.top_languages =
      ((sortDescBy (fun p => (p.2 : List Repo).length)
        (pureFold initState records).langs).take 10).map
          (fun p => { name := p.1, count := p.2.length }) from rfl]
    rw [head_take_map, hheadL]
    rfl
  · rw [hTtop]
    rw [show (pureHierarchy records).stats.total_topics =
      ((pureFold initState records).topics.filter
        (fun p => p.1 != "uncategorized")).length from rfl]
    exact filter_ne_key_length _ nodeU _ hndT hxT
  · rw [hLtop]
    rw [show (pureHierarchy records).stats.total_languages =
      ((pureFold initState records).langs.filter
        (fun p => p.1 != "Unknown")).length from rfl]
    exact filter_ne_key_length _ reposUnk _ hndL hxL

/-- C10, witness: a concrete batch whose single record has no topics and no
language, so `"uncategorized"` and `"Unknown"` strictly dominate (there are
no other groups), head both rankings, and are excluded from both totals. -/
theorem c10_sentinel_groups_ranked_witness :
    (buildHierarchy [exNoTopics] = .ok (pureHierarchy [exNoTopics]) ∧
      alistLookup "uncategorized" (pureHierarchy [exNoTopics]).topics =
        some { name := "uncategorized", repositories := [exNoTopics], count := 1 } ∧
      (∀ p ∈ (pureHierarchy [exNoTopics]).topics, p.1 ≠ "uncategorized" →
        (p.2 : TopicNode).count < 1) ∧
      alistLookup "Unknown" (pureHierarchy [exNoTopics]).languages = some [exNoTopics] ∧
      (∀ p ∈ (pureHierarchy [exNoTopics]).languages, p.1 ≠ "Unknown" →
        (p.2 : List Repo).length < 1)) ∧
    ((pureHierarchy [exNoTopics]).stats.top_topics.head? =
      some { name := "uncategorized", count := 1 } ∧
    (pureHierarchy [exNoTopics]).stats.top_languages.head? =
      some { name := "Unknown", count := 1 } ∧
    (pureHierarchy [exNoTopics]).stats.total_topics + 1 =
      (pureHierarchy [exNoTopics]).topics.length ∧
    (pureHierarchy [exNoTopics]).stats.total_languages + 1 =
      (pureHierarchy [exNoTopics]).languages.length) :=
  ⟨⟨rfl, by decide, by decide, by decide, by decide⟩,
    c10_sentinel_groups_ranked [exNoTopics] _ rfl
      { name := "uncategorized", repositories := [exNoTopics], count := 1 }
      (by decide) (by decide) [exNoTopics] (by decide) (by decide)⟩

end HierarchySpec
